import Mathlib

/-!
Verification of the option-strategy analyzer's numerical core
(`src/app.py`) against its natural-language specification.

Numbers are modelled as rationals (`ℚ`): the Python code computes with
floats, and the spec speaks of reals; `ℚ` is the exact idealization on
which every algebraic claim of the spec is stated.  NumPy's elementwise
array operations are modelled pointwise (per price) or as `List ℚ`
operations; `np.nan` is modelled as `Option.none`, `float('inf')` as
`(⊤ : WithTop ℚ)`, and a Python runtime exception (IndexError on an
over-short list, min/max of an empty list) as `Option.none` of the
whole computation.
-/

namespace OptionStrategy

/-- Python's `s.startswith(pre)`, on the underlying character lists. -/
def strStarts (s pre : String) : Bool :=
  pre.data.isPrefixOf s.data

/-- Python's substring test `pat in s`, on character lists: `pat` occurs as a
contiguous segment of `l`. -/
def listContains (pat : List Char) : List Char → Bool
  | [] => pat.isPrefixOf ([] : List Char)
  | c :: cs => pat.isPrefixOf (c :: cs) || listContains pat cs

/-- One option leg exactly as the source represents it: a record with a string
`type` tag (e.g. `"long_call"`) and numeric strike and premium
(`src/app.py`, leg dictionaries built at lines 68-124). -/
structure Leg where
  type : String
  strike : ℚ
  premium : ℚ

/-- One leg's contribution inside the loop of `calculate_payoff`
(`src/app.py` lines 19-22): `direction = 1 if leg['type'].startswith('long')
else -1`, `option_type = 'call' in leg['type']`, intrinsic value
`max(0, S - K)` for a call and `max(0, K - S)` for a put, contribution
`direction * intrinsic_value`. -/
def leg_payoff (S : ℚ) (leg : Leg) : ℚ :=
  let direction : ℚ := if strStarts leg.type "long" then 1 else -1
  let option_type : Bool := listContains "call".data leg.type.data
  let intrinsic_value : ℚ :=
    if option_type then max 0 (S - leg.strike) else max 0 (leg.strike - S)
  direction * intrinsic_value

/-- `calculate_payoff` of `src/app.py` lines 17-23 at one grid price: the
accumulator starts at zero and adds each leg's `direction * intrinsic_value`,
so the result is the sum of the per-leg contributions. -/
def calculate_payoff (S : ℚ) (strategy_details : List Leg) : ℚ :=
  (strategy_details.map (leg_payoff S)).sum

/-- The net premium per unit, the expression appearing verbatim at
`src/app.py` line 31 (inside `calculate_us_margin`) and line 136
(`net_premium_points`): `sum(premium if type.startswith('short') else
-premium)` over the legs. -/
def net_premium (strategy_details : List Leg) : ℚ :=
  (strategy_details.map
    (fun leg => if strStarts leg.type "short" then leg.premium else -leg.premium)).sum

/-- `pnl_currency` of `src/app.py` line 137 at one grid price:
`(calculate_payoff(S, legs) + net_premium_points) * multiplier`. -/
def pnl_currency (S : ℚ) (strategy_details : List Leg) (multiplier : ℚ) : ℚ :=
  (calculate_payoff S strategy_details + net_premium strategy_details) * multiplier

/-- NumPy's `np.sign` on an exact number: `-1`, `0` or `1`. -/
def sign (x : ℚ) : ℚ :=
  if x < 0 then -1 else if x = 0 then 0 else 1

/-- `find_break_even_points` of `src/app.py` lines 25-28.
`np.where(np.diff(np.sign(PnL)))[0]` is the ascending list of indices `i`
with `sign(PnL[i]) ≠ sign(PnL[i+1])`; the comprehension keeps those with
`PnL[i+1] - PnL[i] != 0` and emits
`S[i] - PnL[i] * (S[i+1] - S[i]) / (PnL[i+1] - PnL[i])`, scanning the
adjacent pairs left to right. -/
def find_break_even_points : List ℚ → List ℚ → List ℚ
  | s₀ :: s₁ :: ss, p₀ :: p₁ :: ps =>
    let rest := find_break_even_points (s₁ :: ss) (p₁ :: ps)
    if sign p₀ ≠ sign p₁ ∧ p₁ - p₀ ≠ 0 then
      (s₀ - p₀ * (s₁ - s₀) / (p₁ - p₀)) :: rest
    else rest
  | _, _ => []

/-- Restatement of the spec's break-even contract (§4.5) for one adjacent
index pair, used to compare `find_break_even_points` against the spec:
`some` of the linear interpolation when the signs differ and the denominator
is nonzero, `none` otherwise. -/
def crossingSpec (S PnL : List ℚ) (i : ℕ) : Option ℚ :=
  let s₀ := S.getD i 0
  let s₁ := S.getD (i + 1) 0
  let p₀ := PnL.getD i 0
  let p₁ := PnL.getD (i + 1) 0
  if sign p₀ ≠ sign p₁ ∧ p₁ - p₀ ≠ 0 then
    some (s₀ - p₀ * (s₁ - s₀) / (p₁ - p₀))
  else none

/-- `calculate_us_margin` of `src/app.py` lines 30-40.  Python's
`max`/`min` on an empty strike list and the `k_calls[1]`/`k_calls[0]`
indexing on a call-strike list of length `< 2` raise; those runtime errors
are modelled as `none`.  `sorted(...)` is ascending stable sort, modelled by
`List.insertionSort (· ≤ ·)`. -/
def calculate_us_margin (strategy_name : String) (strategy_details : List Leg)
    (multiplier : ℚ) : Option ℚ :=
  let netp := net_premium strategy_details
  if netp ≤ 0 then some 0
  else if strategy_name = "Iron Condor" ∨ strategy_name = "Bull Put Spread" ∨
      strategy_name = "Bear Call Spread" then
    match (strategy_details.map Leg.strike).max?,
        (strategy_details.map Leg.strike).min? with
    | some kmax, some kmin =>
      if strategy_name = "Iron Condor" then
        let k_calls := List.insertionSort (· ≤ ·)
          ((strategy_details.filter
            (fun leg => listContains "call".data leg.type.data)).map Leg.strike)
        match k_calls.get? 0, k_calls.get? 1 with
        | some k₀, some k₁ => some ((k₁ - k₀) * multiplier)
        | _, _ => none
      else some ((kmax - kmin) * multiplier)
    | _, _ => none
  else some 0

/-- `cost_basis` of `src/app.py` lines 143-148: `abs(net_cost_credit)` when
the net premium in currency is negative (net debit), the margin otherwise. -/
def cost_basis (net_cost_credit margin : ℚ) : ℚ :=
  if net_cost_credit < 0 then |net_cost_credit| else margin

/-- `roi_per_point` of `src/app.py` lines 151-154, elementwise over the PnL
curve: `(pnl / cost_basis) * 100` when the basis is positive, a full array
of `np.nan` (modelled `none`) otherwise. -/
def roi_per_point (pnl : List ℚ) (basis : ℚ) : List (Option ℚ) :=
  if basis > 0 then pnl.map (fun x => some (x / basis * 100))
  else pnl.map (fun _ => none)

/-- `total_roi` of `src/app.py` lines 156-159: for a net debit
(`net_cost_credit < 0`) it is `(max_profit / basis) * 100`, otherwise
`(net_cost_credit / basis) * 100`, in both branches `float('inf')`
(modelled `⊤`) when the basis is not positive. -/
def total_roi (net_cost_credit max_profit basis : ℚ) : WithTop ℚ :=
  if net_cost_credit < 0 then
    if basis > 0 then (((max_profit / basis) * 100 : ℚ) : WithTop ℚ) else ⊤
  else
    if basis > 0 then (((net_cost_credit / basis) * 100 : ℚ) : WithTop ℚ) else ⊤

/-- The spec's grid-range error (§4.1, §7). -/
inductive RangeError where
  | invalidRange
deriving DecidableEq

/-- The arithmetic grid `[lowBound, lowBound + step, …)` truncated strictly
below `highBound`: `⌈(highBound - lowBound) / step⌉` points. -/
def gridList (lowBound highBound step : ℚ) : List ℚ :=
  (List.range ⌈(highBound - lowBound) / step⌉₊).map
    (fun i : ℕ => lowBound + (i : ℚ) * step)

/-- Modelled from the spec: the `PriceGrid.generate(lowBound, highBound,
step)` operation of §4.1, including its `InvalidRangeError` failure on
`step <= 0` or `highBound <= lowBound`.  The source has no such function
under `src/`: `src/app.py` line 135 only calls `np.arange` with a fixed
step of `0.5` and bounds that always satisfy the preconditions, and no
validation code exists there. -/
def generate (lowBound highBound step : ℚ) : Except RangeError (List ℚ) :=
  if step ≤ 0 ∨ highBound ≤ lowBound then .error .invalidRange
  else .ok (gridList lowBound highBound step)

/-- Spec-side option class (§3, `Leg.optionClass`). -/
inductive OptionClass where
  | call
  | put
deriving DecidableEq

/-- Spec-side direction (§3, `Leg.direction`). -/
inductive Direction where
  | long
  | short
deriving DecidableEq

/-- Spec-side structured leg (§3): orthogonal class and direction with
numeric strike and premium. -/
structure SpecLeg where
  cls : OptionClass
  dir : Direction
  strike : ℚ
  premium : ℚ

/-- Intrinsic value per unit of a structured leg (§4.2): `max(0, S - K)`
for a call, `max(0, K - S)` for a put. -/
def SpecLeg.intrinsic (S : ℚ) (leg : SpecLeg) : ℚ :=
  match leg.cls with
  | .call => max 0 (S - leg.strike)
  | .put => max 0 (leg.strike - S)

/-- Signed intrinsic contribution (§4.2): `+intrinsic` if Long, `-intrinsic`
if Short. -/
def SpecLeg.signedIntrinsic (S : ℚ) (leg : SpecLeg) : ℚ :=
  match leg.dir with
  | .long => leg.intrinsic S
  | .short => -(leg.intrinsic S)

/-- Signed premium contribution to the net premium per unit (§4.2):
`+premium` if Short, `-premium` if Long. -/
def SpecLeg.signedPremium (leg : SpecLeg) : ℚ :=
  match leg.dir with
  | .short => leg.premium
  | .long => -leg.premium

/-- The source's string tag for a structured leg: the four tags
`long_call`, `long_put`, `short_call`, `short_put` the UI builds
(`src/app.py` lines 68-124). -/
def SpecLeg.tag (leg : SpecLeg) : String :=
  match leg.dir, leg.cls with
  | .long, .call => "long_call"
  | .long, .put => "long_put"
  | .short, .call => "short_call"
  | .short, .put => "short_put"

/-- View a structured leg as the record the source consumes. -/
def SpecLeg.toLeg (leg : SpecLeg) : Leg :=
  { type := leg.tag, strike := leg.strike, premium := leg.premium }

/-! ## Helper lemmas -/

@[simp] theorem strStarts_long_call_long : strStarts "long_call" "long" = true := by decide

@[simp] theorem strStarts_long_put_long : strStarts "long_put" "long" = true := by decide

@[simp] theorem strStarts_short_call_long : strStarts "short_call" "long" = false := by decide

@[simp] theorem strStarts_short_put_long : strStarts "short_put" "long" = false := by decide

@[simp] theorem strStarts_long_call_short : strStarts "long_call" "short" = false := by decide

@[simp] theorem strStarts_long_put_short : strStarts "long_put" "short" = false := by decide

@[simp] theorem strStarts_short_call_short : strStarts "short_call" "short" = true := by decide

@[simp] theorem strStarts_short_put_short : strStarts "short_put" "short" = true := by decide

@[simp] theorem strStarts_x_long : strStarts "x" "long" = false := by decide

@[simp] theorem strStarts_x_short : strStarts "x" "short" = false := by decide

@[simp] theorem listContains_call_long_call :
    listContains ['c','a','l','l'] ['l','o','n','g','_','c','a','l','l'] = true := by decide

@[simp] theorem listContains_call_short_call :
    listContains ['c','a','l','l'] ['s','h','o','r','t','_','c','a','l','l'] = true := by decide

@[simp] theorem listContains_call_long_put :
    listContains ['c','a','l','l'] ['l','o','n','g','_','p','u','t'] = false := by decide

@[simp] theorem listContains_call_short_put :
    listContains ['c','a','l','l'] ['s','h','o','r','t','_','p','u','t'] = false := by decide

@[simp] theorem listContains_call_x : listContains ['c','a','l','l'] ['x'] = false := by decide

theorem leg_payoff_toLeg (S : ℚ) (leg : SpecLeg) :
    leg_payoff S leg.toLeg = leg.signedIntrinsic S := by
  rcases leg with ⟨cls, dir, K, p⟩
  cases cls <;> cases dir <;>
    simp [leg_payoff, SpecLeg.toLeg, SpecLeg.tag, SpecLeg.signedIntrinsic,
      SpecLeg.intrinsic]

theorem signedPremium_toLeg (leg : SpecLeg) :
    (if strStarts leg.toLeg.type "short" then leg.toLeg.premium else -leg.toLeg.premium)
      = leg.signedPremium := by
  rcases leg with ⟨cls, dir, K, p⟩
  cases cls <;> cases dir <;>
    simp [SpecLeg.toLeg, SpecLeg.tag, SpecLeg.signedPremium]

theorem calculate_payoff_toLeg (S : ℚ) (legs : List SpecLeg) :
    calculate_payoff S (legs.map SpecLeg.toLeg) =
      (legs.map (SpecLeg.signedIntrinsic S)).sum := by
  induction legs with
  | nil => simp [calculate_payoff]
  | cons a l ih =>
    simp only [calculate_payoff, List.map_cons, List.sum_cons] at ih ⊢
    rw [leg_payoff_toLeg, ih]

theorem net_premium_toLeg (legs : List SpecLeg) :
    net_premium (legs.map SpecLeg.toLeg) = (legs.map SpecLeg.signedPremium).sum := by
  induction legs with
  | nil => simp [net_premium]
  | cons a l ih =>
    simp only [net_premium, List.map_cons, List.sum_cons] at ih ⊢
    rw [signedPremium_toLeg, ih]

/-! ## Claim theorems -/

/-- C1: for every price, every list of structured legs (class Call/Put,
direction Long/Short, numeric strike and premium) and every multiplier, the
net currency payoff of the source equals (sum of signed intrinsic values +
net premium per unit) * multiplier, with intrinsic `max 0 (S - K)` for a
call and `max 0 (K - S)` for a put, signed `+` for Long and `-` for Short,
and per-unit premium `+premium` for Short and `-premium` for Long.  The
statement quantifies over arbitrary lists, so a leg occurring twice (a
butterfly body) contributes twice to both sums. -/
theorem pnl_currency_eq_spec (S : ℚ) (legs : List SpecLeg) (m : ℚ) :
    pnl_currency S (legs.map SpecLeg.toLeg) m =
      ((legs.map (SpecLeg.signedIntrinsic S)).sum +
        (legs.map SpecLeg.signedPremium).sum) * m := by
  rw [pnl_currency, calculate_payoff_toLeg, net_premium_toLeg]

/-- C4: the capital basis is `|p|` when the net premium in currency `p` is
negative (net debit paid) and the margin `m` otherwise (net credit or
exactly zero). -/
theorem cost_basis_cases (p m : ℚ) :
    (p < 0 → cost_basis p m = |p|) ∧ (0 ≤ p → cost_basis p m = m) := by
  constructor
  · intro h
    simp [cost_basis, h]
  · intro h
    simp [cost_basis, not_lt.mpr h]

/-- Witness for C4 at `p = -3, m = 7` and `p = 2, m = 7`. -/
theorem cost_basis_cases_witness :
    ((-3 : ℚ) < 0 ∧ cost_basis (-3) 7 = |(-3 : ℚ)|) ∧
      ((0 : ℚ) ≤ 2 ∧ cost_basis 2 7 = 7) :=
  ⟨⟨by norm_num, (cost_basis_cases (-3) 7).1 (by norm_num)⟩,
    ⟨by norm_num, (cost_basis_cases 2 7).2 (by norm_num)⟩⟩

/-- C5: when the basis is positive the per-point ROI series is
`(pnl / basis) * 100` elementwise; when the basis is zero every element is
the explicit undefined marker `none` (the model of `np.nan`), and the
computation is a total function, so it never aborts. -/
theorem roi_per_point_cases (pnl : List ℚ) (basis : ℚ) :
    (basis > 0 → roi_per_point pnl basis = pnl.map (fun x => some (x / basis * 100))) ∧
    (basis = 0 → ∀ r ∈ roi_per_point pnl basis, r = none) := by
  constructor
  · intro h
    simp [roi_per_point, h]
  · intro h r hr
    simp [roi_per_point, h] at hr
    tauto

/-- Witness for C5 on the curve `[-170, 830]` with bases `170` and `0`. -/
theorem roi_per_point_cases_witness :
    ((170 : ℚ) > 0 ∧
      roi_per_point [-170, 830] 170 = [-170, 830].map (fun x => some (x / 170 * 100))) ∧
    ((0 : ℚ) = 0 ∧ ∀ r ∈ roi_per_point [-170, 830] 0, r = none) :=
  ⟨⟨by norm_num, (roi_per_point_cases [-170, 830] 170).1 (by norm_num)⟩,
    ⟨rfl, (roi_per_point_cases [-170, 830] 0).2 rfl⟩⟩

/-- C6: total ROI is `(maxProfit / basis) * 100` for net-debit strategies
(`net < 0`) and `(net / basis) * 100` for net-credit strategies
(`0 ≤ net`), both when `basis > 0`; when `basis = 0` it is the value `⊤`
(the model of `float('inf')`), returned, not raised. -/
theorem total_roi_cases (net mp basis : ℚ) :
    (net < 0 → basis > 0 → total_roi net mp basis = ((mp / basis * 100 : ℚ) : WithTop ℚ)) ∧
    (0 ≤ net → basis > 0 → total_roi net mp basis = ((net / basis * 100 : ℚ) : WithTop ℚ)) ∧
    (basis = 0 → total_roi net mp basis = ⊤) := by
  refine ⟨fun h hb => ?_, fun h hb => ?_, fun hb => ?_⟩
  · simp [total_roi, h, hb]
  · simp [total_roi, not_lt.mpr h, hb]
  · rcases lt_or_le net 0 with h | h <;> simp [total_roi, h, not_lt.mpr, hb, lt_irrefl]

/-- Witness for C6 at `(net, maxProfit, basis) = (-170, 830, 170)`,
`(180, 180, 1000)` and basis `0`. -/
theorem total_roi_cases_witness :
    ((-170 : ℚ) < 0 ∧ (170 : ℚ) > 0 ∧
      total_roi (-170) 830 170 = ((830 / 170 * 100 : ℚ) : WithTop ℚ)) ∧
    ((0 : ℚ) ≤ 180 ∧ (1000 : ℚ) > 0 ∧
      total_roi 180 180 1000 = ((180 / 1000 * 100 : ℚ) : WithTop ℚ)) ∧
    ((0 : ℚ) = 0 ∧ total_roi 180 180 0 = ⊤) :=
  ⟨⟨by norm_num, by norm_num,
      (total_roi_cases (-170) 830 170).1 (by norm_num) (by norm_num)⟩,
    ⟨by norm_num, by norm_num,
      (total_roi_cases 180 180 1000).2.1 (by norm_num) (by norm_num)⟩,
    ⟨rfl, (total_roi_cases 180 180 0).2.2 rfl⟩⟩

/-- C9: the payoff computation is total on arbitrary string tags: a tag not
starting with `long` is treated as a short position (the contribution is
minus the intrinsic value), a tag not containing `call` is treated as a put,
and the unrecognized tag `"x"` behaves exactly like `"short_put"`. -/
theorem leg_payoff_unvalidated_tags (S : ℚ) (leg : Leg) :
    (strStarts leg.type "long" = false →
      leg_payoff S leg =
        -(if listContains "call".data leg.type.data then max 0 (S - leg.strike)
          else max 0 (leg.strike - S))) ∧
    (listContains "call".data leg.type.data = false →
      leg_payoff S leg =
        (if strStarts leg.type "long" then (1 : ℚ) else -1) * max 0 (leg.strike - S)) ∧
    (leg.type = "x" →
      leg_payoff S leg = leg_payoff S ⟨"short_put", leg.strike, leg.premium⟩) := by
  refine ⟨fun h => ?_, fun h => ?_, fun h => ?_⟩
  · simp [leg_payoff, h]
    split <;> rfl
  · simp [leg_payoff, h]
  · rcases leg with ⟨t, K, p⟩
    simp only at h
    subst h
    simp [leg_payoff]

/-- Witness for C9 at the tag `"x"`, strike 100, premium 1, price 95. -/
theorem leg_payoff_unvalidated_tags_witness :
    (strStarts "x" "long" = false ∧
      leg_payoff 95 ⟨"x", 100, 1⟩ =
        -(if listContains "call".data "x".data then max 0 ((95 : ℚ) - 100)
          else max 0 ((100 : ℚ) - 95))) ∧
    (listContains "call".data "x".data = false ∧
      leg_payoff 95 ⟨"x", 100, 1⟩ =
        (if strStarts "x" "long" then (1 : ℚ) else -1) * max 0 ((100 : ℚ) - 95)) ∧
    ("x" = "x" ∧ leg_payoff 95 ⟨"x", 100, 1⟩ = leg_payoff 95 ⟨"short_put", 100, 1⟩) :=
  ⟨⟨by decide, (leg_payoff_unvalidated_tags 95 ⟨"x", 100, 1⟩).1 (by decide)⟩,
    ⟨by decide, (leg_payoff_unvalidated_tags 95 ⟨"x", 100, 1⟩).2.1 (by decide)⟩,
    ⟨rfl, (leg_payoff_unvalidated_tags 95 ⟨"x", 100, 1⟩).2.2 rfl⟩⟩

/-- C10: for every strategy name and leg list, the margin is 0 whenever the
net premium per unit (premiums of `short*` legs minus the others) is not
strictly positive; the strike-width formulas are reached only past this
gate. -/
theorem calculate_us_margin_credit_gate (strategy_name : String) (legs : List Leg)
    (m : ℚ) (h : net_premium legs ≤ 0) :
    calculate_us_margin strategy_name legs m = some 0 := by
  simp [calculate_us_margin, h]

/-- Witness for C10: a bull put spread entered at a net debit has margin 0. -/
theorem calculate_us_margin_credit_gate_witness :
    net_premium [⟨"short_put", 100, 1⟩, ⟨"long_put", 90, 2⟩] ≤ 0 ∧
      calculate_us_margin "Bull Put Spread"
        [⟨"short_put", 100, 1⟩, ⟨"long_put", 90, 2⟩] 100 = some 0 :=
  ⟨by norm_num [net_premium],
    calculate_us_margin_credit_gate "Bull Put Spread"
      [⟨"short_put", 100, 1⟩, ⟨"long_put", 90, 2⟩] 100 (by norm_num [net_premium])⟩

/-- C2: for an iron condor built as the source builds it (long put, short
put, short call, long call) whose two put strikes lie below its two call
strikes, entered at a positive net credit, the margin is the call-side
width `(higher call strike - lower call strike) * multiplier`, not the full
lowest-to-highest width. -/
theorem iron_condor_margin_call_width (k₁ k₂ k₃ k₄ p₁ p₂ p₃ p₄ m : ℚ)
    (_hputs : k₁ < k₃ ∧ k₁ < k₄ ∧ k₂ < k₃ ∧ k₂ < k₄)
    (hcredit : 0 < net_premium [⟨"long_put", k₁, p₁⟩, ⟨"short_put", k₂, p₂⟩,
      ⟨"short_call", k₃, p₃⟩, ⟨"long_call", k₄, p₄⟩]) :
    calculate_us_margin "Iron Condor"
        [⟨"long_put", k₁, p₁⟩, ⟨"short_put", k₂, p₂⟩,
          ⟨"short_call", k₃, p₃⟩, ⟨"long_call", k₄, p₄⟩] m
      = some ((max k₃ k₄ - min k₃ k₄) * m) := by
  rcases le_or_lt k₃ k₄ with h | h
  · simp [calculate_us_margin, not_le.mpr hcredit, List.insertionSort, List.orderedInsert,
      List.max?, List.min?, h, max_eq_right h, min_eq_left h]
  · simp [calculate_us_margin, not_le.mpr hcredit, List.insertionSort, List.orderedInsert,
      List.max?, List.min?, not_le.mpr h, max_eq_left h.le, min_eq_right h.le]

/-- Witness for C2, the spec's scenario: put strikes 90/95, call strikes
105/110, multiplier 100, net credit `-0.5 + 1.5 + 1.8 - 0.6 = 2.2 > 0`;
the margin is 500, not the 90-110 width 2000. -/
theorem iron_condor_margin_call_width_witness :
    ((90 : ℚ) < 105 ∧ (90 : ℚ) < 110 ∧ (95 : ℚ) < 105 ∧ (95 : ℚ) < 110) ∧
    0 < net_premium [⟨"long_put", 90, 0.5⟩, ⟨"short_put", 95, 1.5⟩,
      ⟨"short_call", 105, 1.8⟩, ⟨"long_call", 110, 0.6⟩] ∧
    calculate_us_margin "Iron Condor"
        [⟨"long_put", 90, 0.5⟩, ⟨"short_put", 95, 1.5⟩,
          ⟨"short_call", 105, 1.8⟩, ⟨"long_call", 110, 0.6⟩] 100 = some 500 ∧
    (500 : ℚ) ≠ 2000 :=
  ⟨by norm_num, by norm_num [net_premium],
    (iron_condor_margin_call_width 90 95 105 110 0.5 1.5 1.8 0.6 100
        (by norm_num) (by norm_num [net_premium])).trans (by norm_num),
    by norm_num⟩

/-- C7 counterexample: the claim asserts the strike-width formula for a
Bull Put Spread with *any* two legs of distinct strikes, but on a net-debit
leg pair (short put premium 1, long put premium 2, net premium `-1 ≤ 0`)
the code returns a margin of 0, not `(100 - 90) * 100 = 1000`. -/
theorem vertical_margin_counterexample :
    calculate_us_margin "Bull Put Spread"
        [⟨"short_put", 100, 1⟩, ⟨"long_put", 90, 2⟩] 100 = some 0 ∧
      (max (100 : ℚ) 90 - min (100 : ℚ) 90) * 100 = 1000 ∧
      some (0 : ℚ) ≠ some (1000 : ℚ) := by
  refine ⟨?_, by norm_num, by norm_num⟩
  simp [calculate_us_margin, net_premium]

/-- C7 as amended: for Bull Put Spread and Bear Call Spread with two legs
of distinct strikes *and a strictly positive net premium per unit*, margin
is `(highest strike - lowest strike) * multiplier`; for strategy names
other than the three net-credit shapes the margin is 0 unconditionally. -/
theorem vertical_margin_rules :
    (∀ (strategy_name : String) (l₁ l₂ : Leg) (m : ℚ),
      strategy_name = "Bull Put Spread" ∨ strategy_name = "Bear Call Spread" →
      l₁.strike ≠ l₂.strike → 0 < net_premium [l₁, l₂] →
      calculate_us_margin strategy_name [l₁, l₂] m =
        some ((max l₁.strike l₂.strike - min l₁.strike l₂.strike) * m)) ∧
    (∀ (strategy_name : String) (legs : List Leg) (m : ℚ),
      strategy_name ≠ "Iron Condor" → strategy_name ≠ "Bull Put Spread" →
      strategy_name ≠ "Bear Call Spread" →
      calculate_us_margin strategy_name legs m = some 0) := by
  constructor
  · intro strategy_name l₁ l₂ m hname _hk hcredit
    rcases hname with rfl | rfl <;>
      simp [calculate_us_margin, not_le.mpr hcredit, List.max?, List.min?, max_comm]
  · intro strategy_name legs m h₁ h₂ h₃
    simp only [calculate_us_margin]
    rcases le_or_lt (net_premium legs) 0 with h | h
    · rw [if_pos h]
    · rw [if_neg (not_le.mpr h), if_neg (by simp [h₁, h₂, h₃])]

/-- Witness for C7's amended statement: the spec's Bull Put Spread scenario
(short put 100 @ 3.00, long put 90 @ 1.20, net credit 1.80) has margin
1000, and a Bull Call Spread has margin 0. -/
theorem vertical_margin_rules_witness :
    (("Bull Put Spread" = "Bull Put Spread" ∨ "Bull Put Spread" = "Bear Call Spread") ∧
      (⟨"short_put", 100, 3⟩ : Leg).strike ≠ (⟨"long_put", 90, 1.2⟩ : Leg).strike ∧
      0 < net_premium [⟨"short_put", 100, 3⟩, ⟨"long_put", 90, 1.2⟩] ∧
      calculate_us_margin "Bull Put Spread"
        [⟨"short_put", 100, 3⟩, ⟨"long_put", 90, 1.2⟩] 100 = some 1000) ∧
    calculate_us_margin "Bull Call Spread"
        [⟨"long_call", 100, 2.5⟩, ⟨"short_call", 110, 0.8⟩] 100 = some 0 :=
  ⟨⟨Or.inl rfl, by norm_num, by norm_num [net_premium],
      (vertical_margin_rules.1 "Bull Put Spread" ⟨"short_put", 100, 3⟩
          ⟨"long_put", 90, 1.2⟩ 100 (Or.inl rfl) (by norm_num)
          (by norm_num [net_premium])).trans (by norm_num)⟩,
    vertical_margin_rules.2 "Bull Call Spread"
      [⟨"long_call", 100, 2.5⟩, ⟨"short_call", 110, 0.8⟩] 100
      (by decide) (by decide) (by decide)⟩

/-- In an adjacent pair with a sign change the interpolated crossing lies in
`[s₀, s₁]`. -/
theorem interp_mem (s₀ s₁ p₀ p₁ : ℚ) (hs : s₀ < s₁) (hsg : sign p₀ ≠ sign p₁) :
    s₀ ≤ s₀ - p₀ * (s₁ - s₀) / (p₁ - p₀) ∧ s₀ - p₀ * (s₁ - s₀) / (p₁ - p₀) ≤ s₁ := by
  rcases lt_trichotomy p₀ 0 with hp | hp | hp
  · have hp₁ : 0 ≤ p₁ := by
      by_contra hneg
      push_neg at hneg
      exact hsg (by simp [sign, hp, hneg])
    have hd : 0 < p₁ - p₀ := by linarith
    constructor
    · have hnum : p₀ * (s₁ - s₀) / (p₁ - p₀) ≤ 0 :=
        div_nonpos_iff.mpr (Or.inr ⟨by nlinarith, by linarith⟩)
      linarith
    · have h2 : -(p₀ * (s₁ - s₀)) / (p₁ - p₀) ≤ s₁ - s₀ := by
        rw [div_le_iff₀ hd]
        nlinarith
      rw [neg_div] at h2
      linarith
  · simp [hp, hs.le]
  · have hp₁ : p₁ ≤ 0 := by
      by_contra hneg
      push_neg at hneg
      have : ¬ p₁ < 0 := by linarith
      exact hsg (by simp [sign, not_lt.mpr hp.le, hp.ne.symm, this, hneg.ne.symm])
    have hd : p₁ - p₀ < 0 := by linarith
    constructor
    · have hnum : p₀ * (s₁ - s₀) / (p₁ - p₀) ≤ 0 :=
        div_nonpos_iff.mpr (Or.inl ⟨by nlinarith, by linarith⟩)
      linarith
    · have h2 : -(p₀ * (s₁ - s₀)) / (p₁ - p₀) ≤ s₁ - s₀ := by
        rw [div_le_iff_of_neg hd]
        nlinarith
      rw [neg_div] at h2
      linarith

/-- Every break-even produced on a strictly increasing grid is at least the
grid's first price. -/
theorem fbep_mem_ge (ss : List ℚ) : ∀ (s₀ : ℚ) (PnL : List ℚ),
    List.Chain' (· < ·) (s₀ :: ss) →
    ∀ x ∈ find_break_even_points (s₀ :: ss) PnL, s₀ ≤ x := by
  induction ss with
  | nil =>
    intro s₀ PnL _ x hx
    simp [find_break_even_points] at hx
  | cons s₁ ss ih =>
    intro s₀ PnL hch x hx
    rcases PnL with - | ⟨p₀, PnL⟩
    · simp [find_break_even_points] at hx
    rcases PnL with - | ⟨p₁, ps⟩
    · simp [find_break_even_points] at hx
    have h01 : s₀ < s₁ := (List.chain'_cons.mp hch).1
    have htail : List.Chain' (· < ·) (s₁ :: ss) := (List.chain'_cons.mp hch).2
    simp only [find_break_even_points] at hx
    by_cases hc : sign p₀ ≠ sign p₁ ∧ p₁ - p₀ ≠ 0
    · rw [if_pos hc] at hx
      rcases List.mem_cons.mp hx with rfl | hmem
      · exact (interp_mem s₀ s₁ p₀ p₁ h01 hc.1).1
      · exact le_trans h01.le (ih s₁ (p₁ :: ps) htail x hmem)
    · rw [if_neg hc] at hx
      exact le_trans h01.le (ih s₁ (p₁ :: ps) htail x hx)

/-- On a strictly increasing price grid the break-even list is ascending. -/
theorem fbep_sorted (S : List ℚ) : ∀ (PnL : List ℚ), List.Chain' (· < ·) S →
    (find_break_even_points S PnL).Sorted (· ≤ ·) := by
  induction S with
  | nil =>
    intro PnL _
    simp [find_break_even_points]
  | cons s₀ ss ih =>
    intro PnL hch
    rcases ss with - | ⟨s₁, ss⟩
    · simp [find_break_even_points]
    rcases PnL with - | ⟨p₀, PnL⟩
    · simp [find_break_even_points]
    rcases PnL with - | ⟨p₁, ps⟩
    · simp [find_break_even_points]
    have h01 : s₀ < s₁ := (List.chain'_cons.mp hch).1
    have htail : List.Chain' (· < ·) (s₁ :: ss) := (List.chain'_cons.mp hch).2
    simp only [find_break_even_points]
    by_cases hc : sign p₀ ≠ sign p₁ ∧ p₁ - p₀ ≠ 0
    · rw [if_pos hc]
      refine List.sorted_cons.mpr ⟨?_, ih (p₁ :: ps) htail⟩
      intro b hb
      have hb₁ : s₁ ≤ b := fbep_mem_ge ss s₁ (p₁ :: ps) htail b hb
      have hub := (interp_mem s₀ s₁ p₀ p₁ h01 hc.1).2
      linarith
    · rw [if_neg hc]
      exact ih (p₁ :: ps) htail

/-- Shifting the index into the tails of both lists. -/
theorem crossingSpec_succ (s₀ p₀ : ℚ) (S PnL : List ℚ) (i : ℕ) :
    crossingSpec (s₀ :: S) (p₀ :: PnL) (i + 1) = crossingSpec S PnL i := by
  simp [crossingSpec, List.getD_cons_succ]

/-- `find_break_even_points` agrees with the spec's per-pair contract: one
interpolated value for exactly the adjacent index pairs whose condition
holds, in index order. -/
theorem fbep_eq_filterMap (S : List ℚ) : ∀ (PnL : List ℚ), S.length = PnL.length →
    find_break_even_points S PnL =
      (List.range (PnL.length - 1)).filterMap (crossingSpec S PnL) := by
  induction S with
  | nil =>
    intro PnL hlen
    have : PnL = [] := List.eq_nil_of_length_eq_zero hlen.symm
    subst this
    simp [find_break_even_points]
  | cons s₀ ss ih =>
    intro PnL hlen
    rcases PnL with - | ⟨p₀, PnL⟩
    · simp at hlen
    rcases ss with - | ⟨s₁, ss⟩
    · have : PnL = [] := by
        simpa using List.eq_nil_of_length_eq_zero (by simpa using hlen.symm)
      subst this
      simp [find_break_even_points]
    rcases PnL with - | ⟨p₁, ps⟩
    · simp at hlen
    have hlen' : (s₁ :: ss).length = (p₁ :: ps).length := by simpa using hlen
    have hn : (p₀ :: p₁ :: ps).length - 1 = (p₁ :: ps).length := by simp
    rw [hn]
    have hzero : crossingSpec (s₀ :: s₁ :: ss) (p₀ :: p₁ :: ps) 0 =
        if sign p₀ ≠ sign p₁ ∧ p₁ - p₀ ≠ 0 then
          some (s₀ - p₀ * (s₁ - s₀) / (p₁ - p₀)) else none := by
      simp [crossingSpec]
    have hshift : (List.range (p₁ :: ps).length).filterMap
          (crossingSpec (s₀ :: s₁ :: ss) (p₀ :: p₁ :: ps)) =
        (if sign p₀ ≠ sign p₁ ∧ p₁ - p₀ ≠ 0 then
          [s₀ - p₀ * (s₁ - s₀) / (p₁ - p₀)] else []) ++
          (List.range ((p₁ :: ps).length - 1)).filterMap
            (crossingSpec (s₁ :: ss) (p₁ :: ps)) := by
      have hlist : (p₁ :: ps).length = ((p₁ :: ps).length - 1) + 1 := by simp
      rw [hlist, List.range_succ_eq_map, List.filterMap_cons, List.filterMap_map]
      have hcomp : (crossingSpec (s₀ :: s₁ :: ss) (p₀ :: p₁ :: ps)) ∘ Nat.succ =
          crossingSpec (s₁ :: ss) (p₁ :: ps) := by
        funext i
        simpa [Function.comp, Nat.succ_eq_add_one] using
          crossingSpec_succ s₀ p₀ (s₁ :: ss) (p₁ :: ps) i
      rw [hcomp, hzero]
      by_cases hc : sign p₀ ≠ sign p₁ ∧ p₁ - p₀ ≠ 0
      · rw [if_pos hc, if_pos hc]
        simp
      · rw [if_neg hc, if_neg hc]
        simp
    rw [hshift]
    simp only [find_break_even_points]
    rw [ih (p₁ :: ps) hlen']
    by_cases hc : sign p₀ ≠ sign p₁ ∧ p₁ - p₀ ≠ 0
    · rw [if_pos hc, if_pos hc]
      simp
    · rw [if_neg hc, if_neg hc]
      simp

/-- C3: for equal-length sequences with strictly increasing prices,
`find_break_even_points` returns exactly one value per adjacent index pair
with `sign pnl[i] ≠ sign pnl[i+1]` and nonzero denominator — namely the
linear interpolation `prices[i] - pnl[i]*(prices[i+1]-prices[i])/(pnl[i+1]-pnl[i])`
— zero-denominator pairs contribute nothing, the results are in ascending
price order, and a curve with no sign change yields `[]` (no error: the
function is total). -/
theorem find_break_even_points_spec (S PnL : List ℚ)
    (hlen : S.length = PnL.length) (hmono : List.Chain' (· < ·) S) :
    find_break_even_points S PnL =
        (List.range (PnL.length - 1)).filterMap (crossingSpec S PnL) ∧
      (find_break_even_points S PnL).Sorted (· ≤ ·) ∧
      ((∀ i, i + 1 < PnL.length →
          sign (PnL.getD i 0) = sign (PnL.getD (i + 1) 0)) →
        find_break_even_points S PnL = []) := by
  refine ⟨fbep_eq_filterMap S PnL hlen, fbep_sorted S PnL hmono, fun hflat => ?_⟩
  rw [fbep_eq_filterMap S PnL hlen, List.filterMap_eq_nil_iff]
  intro i hi
  rw [List.mem_range] at hi
  have h2 : i + 1 < PnL.length := by omega
  have hc : ¬ (sign (PnL.getD i 0) ≠ sign (PnL.getD (i + 1) 0) ∧
      PnL.getD (i + 1) 0 - PnL.getD i 0 ≠ 0) := fun hcon => hcon.1 (hflat i h2)
  simp only [crossingSpec]
  rw [if_neg hc]

/-- Witness for C3 on `prices = [1,2,3]`, `pnl = [-1,1,1]`. -/
theorem find_break_even_points_spec_witness :
    ([(1 : ℚ), 2, 3].length = [(-1 : ℚ), 1, 1].length ∧
        List.Chain' (· < ·) [(1 : ℚ), 2, 3]) ∧
      (find_break_even_points [1, 2, 3] [-1, 1, 1] =
          (List.range ([(-1 : ℚ), 1, 1].length - 1)).filterMap
            (crossingSpec [1, 2, 3] [-1, 1, 1]) ∧
        (find_break_even_points [1, 2, 3] [-1, 1, 1]).Sorted (· ≤ ·) ∧
        ((∀ i, i + 1 < [(-1 : ℚ), 1, 1].length →
            sign ([(-1 : ℚ), 1, 1].getD i 0) = sign ([(-1 : ℚ), 1, 1].getD (i + 1) 0)) →
          find_break_even_points [1, 2, 3] [-1, 1, 1] = [])) :=
  ⟨⟨rfl, by norm_num [List.chain'_cons, List.chain'_singleton]⟩,
    find_break_even_points_spec [1, 2, 3] [-1, 1, 1] rfl
      (by norm_num [List.chain'_cons, List.chain'_singleton])⟩

/-- The grid of `generate`: starts at `lowBound`, strictly increasing,
stays strictly below `highBound`, advances by `step`, and contains every
`lowBound + k*step` below `highBound`. -/
theorem gridList_props (lowBound highBound step : ℚ) (hstep : 0 < step)
    (hlt : lowBound < highBound) :
    (gridList lowBound highBound step).head? = some lowBound ∧
      List.Chain' (· < ·) (gridList lowBound highBound step) ∧
      (∀ x ∈ gridList lowBound highBound step, x < highBound) ∧
      (∀ i, i + 1 < (gridList lowBound highBound step).length →
        (gridList lowBound highBound step).getD (i + 1) 0 =
          (gridList lowBound highBound step).getD i 0 + step) ∧
      (∀ k : ℕ, lowBound + k * step < highBound →
        lowBound + k * step ∈ gridList lowBound highBound step) := by
  have hq : 0 < (highBound - lowBound) / step := div_pos (by linarith) hstep
  have hn : 0 < ⌈(highBound - lowBound) / step⌉₊ := Nat.ceil_pos.mpr hq
  refine ⟨?_, ?_, ?_, ?_, ?_⟩
  · obtain ⟨m, hm⟩ := Nat.exists_eq_add_of_lt hn
    simp only [gridList, hm]
    rw [show 0 + m + 1 = m + 1 from by omega, List.range_succ_eq_map]
    simp
  · rw [List.chain'_iff_get]
    intro i hi
    simp only [gridList, List.length_map, List.length_range] at hi
    simp only [gridList]
    rw [List.get_map, List.get_map, List.get_range, List.get_range]
    push_cast
    nlinarith [hstep]
  · intro x hx
    simp only [gridList, List.mem_map] at hx
    obtain ⟨i, hi, rfl⟩ := hx
    rw [List.mem_range, Nat.lt_ceil] at hi
    have hlt2 : (i : ℚ) * step < highBound - lowBound := (lt_div_iff₀ hstep).mp hi
    linarith
  · intro i hi
    simp only [gridList, List.length_map, List.length_range] at hi
    simp only [gridList]
    rw [List.getD_eq_getElem?_getD, List.getD_eq_getElem?_getD,
      List.getElem?_map, List.getElem?_map, List.getElem?_range hi,
      List.getElem?_range (show i < ⌈(highBound - lowBound) / step⌉₊ from by omega)]
    simp
    push_cast
    ring
  · intro k hk
    simp only [gridList, List.mem_map]
    refine ⟨k, ?_, rfl⟩
    rw [List.mem_range, Nat.lt_ceil, lt_div_iff₀ hstep]
    linarith

/-- C8: `generate` fails with `InvalidRangeError` iff `step ≤ 0` or
`highBound ≤ lowBound`, and otherwise returns the strictly increasing
sequence that starts at `lowBound`, advances by `step`, and stops strictly
before `highBound` (a pure function: no side effects). -/
theorem generate_contract (lowBound highBound step : ℚ) :
    (step ≤ 0 ∨ highBound ≤ lowBound →
      generate lowBound highBound step = .error .invalidRange) ∧
    (0 < step → lowBound < highBound →
      generate lowBound highBound step = .ok (gridList lowBound highBound step) ∧
      (gridList lowBound highBound step).head? = some lowBound ∧
      List.Chain' (· < ·) (gridList lowBound highBound step) ∧
      (∀ x ∈ gridList lowBound highBound step, x < highBound) ∧
      (∀ i, i + 1 < (gridList lowBound highBound step).length →
        (gridList lowBound highBound step).getD (i + 1) 0 =
          (gridList lowBound highBound step).getD i 0 + step) ∧
      (∀ k : ℕ, lowBound + k * step < highBound →
        lowBound + k * step ∈ gridList lowBound highBound step)) := by
  constructor
  · intro h
    rw [generate, if_pos h]
  · intro hstep hlt
    obtain ⟨h1, h2, h3, h4, h5⟩ := gridList_props lowBound highBound step hstep hlt
    refine ⟨?_, h1, h2, h3, h4, h5⟩
    rw [generate, if_neg (by push_neg; exact ⟨hstep, hlt⟩)]


/-- Witness for C8: `generate 2 0 1` is the range error, and `generate 0 2 1`
is the grid `[0, 1]` with all the contract's properties. -/
theorem generate_contract_witness :
    (generate 2 0 1 = .error .invalidRange) ∧
    (generate 0 2 1 = .ok (gridList 0 2 1) ∧
      (gridList 0 2 1).head? = some 0 ∧
      List.Chain' (· < ·) (gridList 0 2 1) ∧
      (∀ x ∈ gridList 0 2 1, x < 2) ∧
      (∀ i, i + 1 < (gridList 0 2 1).length →
        (gridList 0 2 1).getD (i + 1) 0 = (gridList 0 2 1).getD i 0 + 1) ∧
      (∀ k : ℕ, (0 : ℚ) + k * 1 < 2 → (0 : ℚ) + k * 1 ∈ gridList 0 2 1)) :=
  ⟨(generate_contract 2 0 1).1 (Or.inr (by norm_num)),
    (generate_contract 0 2 1).2 (by norm_num) (by norm_num)⟩

end OptionStrategy
